import Mathlib

/-!
Verification of the Puyo-Puyo game engine core (`src/app/page.tsx`, with an
older variant in `src/unnamed/part_000`).  The engine state and operations are
shallowly embedded below; grids are lists of rows (row 0 at the top, row index
increasing downward), cells are optional colors, and piece coordinates are
integers exactly as the JavaScript numbers in the source.
-/

namespace Puyo

/-- The five puyo colors of `COLORS` in `src/app/page.tsx`. -/
inductive PuyoColor where
  | red | green | blue | yellow | purple
deriving DecidableEq, Repr

/-- A grid cell: `PuyoColor | null` in the source. -/
abbrev Cell := Option PuyoColor

/-- `type Grid = PuyoColor[][]`, a list of rows. -/
abbrev Grid := List (List Cell)

/-- `const GRID_ROWS = 12`. -/
def GRID_ROWS : Nat := 12

/-- `const GRID_COLS = 6`. -/
def GRID_COLS : Nat := 6

/-- `createEmptyGrid`: a 12-row, 6-column grid of `null`s. -/
def createEmptyGrid : Grid :=
  List.replicate GRID_ROWS (List.replicate GRID_COLS (none : Cell))

/-- `grid[y][x]` for natural indices; out-of-range reads give `null`
(JavaScript `undefined` is as falsy as `null` everywhere the source reads a
cell). -/
def getCell (g : Grid) (y x : Nat) : Cell :=
  (g.getD y []).getD x none

/-- `grid[y][x]` for integer indices, as the source uses plain JavaScript
numbers; negative or too-large indices read as empty. -/
def getCellI (g : Grid) (y x : Int) : Cell :=
  if 0 ≤ y ∧ 0 ≤ x then getCell g y.toNat x.toNat else none

/-- A grid that actually has the fixed engine dimensions. -/
def WFGrid (g : Grid) : Prop :=
  g.length = GRID_ROWS ∧ ∀ row ∈ g, row.length = GRID_COLS

instance : DecidablePred WFGrid := by
  intro g; unfold WFGrid; infer_instance

/-- Column `x` of the grid, top to bottom. -/
def getCol (g : Grid) (x : Nat) : List Cell :=
  g.map (fun row => row.getD x none)

/-- Overwrite column `x` of the grid with the given cells. -/
def setCol (g : Grid) (x : Nat) (col : List Cell) : Grid :=
  List.zipWith (fun row v => row.set x v) g col

/-- One iteration of the inner loop of `applyGravity` (`src/app/page.tsx`
lines 298–306) on a single column: if the cell at row `y` is non-empty it is
written at row `writeY`, its old position is emptied when it moved, and the
write cursor steps up. -/
def colStep (c : List Cell) (y writeY : Nat) : List Cell × Nat :=
  match c.getD y none with
  | some v =>
      let c1 := c.set writeY (some v)
      let c2 := if writeY ≠ y then c1.set y none else c1
      (c2, writeY - 1)
  | none => (c, writeY)

/-- The inner loop of `applyGravity`: process rows `n-1, n-2, …, 0` (the
source iterates `y` from `GRID_ROWS - 1` down to `0`). -/
def colLoop : Nat → List Cell → Nat → List Cell × Nat
  | 0, c, w => (c, w)
  | n + 1, c, w =>
      let s := colStep c n w
      colLoop n s.1 s.2

/-- The full inner loop of `applyGravity` for one column, starting with the
write cursor at the bottom row. -/
def gravityColumn (c : List Cell) : List Cell :=
  (colLoop GRID_ROWS c (GRID_ROWS - 1)).1

/-- `applyGravity` (`src/app/page.tsx` lines 294–309): for each column
`x = 0, …, GRID_COLS - 1` run the compaction loop.  The source's inner loop
reads and writes only cells of column `x`, so it is expressed here as the
column transformer `gravityColumn` applied to each column in turn. -/
def applyGravity (g : Grid) : Grid :=
  (List.range GRID_COLS).foldl (fun acc x => setCol acc x (gravityColumn (getCol acc x))) g

/-- `type GameState = 'title' | 'active' | 'over' | 'pause'`. -/
inductive GameState where
  | title | active | over | pause
deriving DecidableEq, Repr

/-- `interface PuyoPair`: the active falling pair.  `x`, `y`, `rotation` are
plain JavaScript numbers in the source, embedded as integers. -/
structure PuyoPair where
  color1 : Cell
  color2 : Cell
  x : Int
  y : Int
  rotation : Int
deriving DecidableEq, Repr

/-- `generatePuyoPair` (`src/app/page.tsx` lines 73–79) with its two random
colors made explicit parameters: anchor at column 2, row 0, orientation 0. -/
def generatePuyoPairAt (c1 c2 : Cell) : PuyoPair :=
  { color1 := c1, color2 := c2, x := 2, y := 0, rotation := 0 }

/-- The piece made active by a hold swap, `{ ...heldPuyo, x: 2, y: 0,
rotation: 0 }` (`src/app/page.tsx` line 317). -/
def heldPuyoToActive (p : PuyoPair) : PuyoPair :=
  { p with x := 2, y := 0, rotation := 0 }

/-- `getSecondPuyoPosition` (`src/app/page.tsx` lines 173–181). -/
def getSecondPuyoPosition (x y r : Int) : Int × Int :=
  if r = 0 then (x, y - 1)
  else if r = 1 then (x + 1, y)
  else if r = 2 then (x, y + 1)
  else if r = 3 then (x - 1, y)
  else (x, y)

/-- `isValidMove` (`src/app/page.tsx` lines 162–171): both cells in bounds
and both target cells empty (`!grid[y][x] && !grid[y2][x2]`). -/
def isValidMove (g : Grid) (p : PuyoPair) : Bool :=
  let s := getSecondPuyoPosition p.x p.y p.rotation
  decide (0 ≤ p.x ∧ p.x < (GRID_COLS : Int) ∧ 0 ≤ p.y ∧ p.y < (GRID_ROWS : Int) ∧
    0 ≤ s.1 ∧ s.1 < (GRID_COLS : Int) ∧ 0 ≤ s.2 ∧ s.2 < (GRID_ROWS : Int) ∧
    getCellI g p.y p.x = none ∧ getCellI g s.2 s.1 = none)

/-- The three translation commands of `movePuyo`. -/
inductive MoveDir where
  | left | right | down
deriving DecidableEq, Repr

/-- The candidate piece built by `movePuyo` (`src/app/page.tsx` lines
139–142) before validation. -/
def movePuyoPos (p : PuyoPair) (d : MoveDir) : PuyoPair :=
  match d with
  | .left => { p with x := p.x - 1 }
  | .right => { p with x := p.x + 1 }
  | .down => { p with y := p.y + 1 }

/-- The two rotation commands of `rotatePuyo`. -/
inductive RotDir where
  | left | right
deriving DecidableEq, Repr

/-- The candidate piece built by `rotatePuyo` (`src/app/page.tsx` line 155):
`(rotation + (left ? -1 : 1) + 4) % 4`. -/
def rotatePuyoPos (p : PuyoPair) (d : RotDir) : PuyoPair :=
  { p with rotation := (p.rotation + (match d with | .left => -1 | .right => 1) + 4) % 4 }

/-- The active-piece positions reachable during one piece's life over a fixed
grid `g`: a piece enters play at the spawn position (fresh spawn and the hold
swap both use anchor (2,0), orientation 0), and every move/rotate is committed
only after `isValidMove` accepts it. -/
inductive ReachablePiece (g : Grid) : PuyoPair → Prop where
  | spawn (c1 c2 : Cell) : ReachablePiece g (generatePuyoPairAt c1 c2)
  | move (p : PuyoPair) (d : MoveDir) : ReachablePiece g p →
      isValidMove g (movePuyoPos p d) = true → ReachablePiece g (movePuyoPos p d)
  | rot (p : PuyoPair) (d : RotDir) : ReachablePiece g p →
      isValidMove g (rotatePuyoPos p d) = true → ReachablePiece g (rotatePuyoPos p d)

/-- Membership of a single integer coordinate pair in `[0,C) × [0,R)`. -/
def inBoundsI (x y : Int) : Prop :=
  0 ≤ x ∧ x < (GRID_COLS : Int) ∧ 0 ≤ y ∧ y < (GRID_ROWS : Int)

instance (x y : Int) : Decidable (inBoundsI x y) := by
  unfold inBoundsI; infer_instance

/-- The two grid coordinates written by `placePuyo` (`src/app/page.tsx` lines
190–191): the anchor cell and the orientation-determined second cell. -/
def placePuyoTargets (p : PuyoPair) : (Int × Int) × (Int × Int) :=
  ((p.x, p.y), getSecondPuyoPosition p.x p.y p.rotation)

/-- `findConnectedPuyos` (`src/app/page.tsx` lines 275–292): depth-first
flood fill through 4-adjacent cells of the start color, keyed by `(x, y)`
coordinates.  The structural `fuel` argument bounds the recursion depth;
`GRID_ROWS * GRID_COLS + 1` is more than any chain of guard-passing calls
(each one inserts a distinct coordinate of the 12×6 grid) can consume. -/
def findConnectedPuyos (g : Grid) : Nat → Int → Int → Cell → Finset (Int × Int) → Finset (Int × Int)
  | 0, _, _, _, visited => visited
  | fuel + 1, x, y, color, visited =>
      if x < 0 ∨ (GRID_COLS : Int) ≤ x ∨ y < 0 ∨ (GRID_ROWS : Int) ≤ y ∨
          getCellI g y x ≠ color ∨ (x, y) ∈ visited then
        visited
      else
        let v1 := insert (x, y) visited
        let v2 := findConnectedPuyos g fuel (x + 1) y color v1
        let v3 := findConnectedPuyos g fuel (x - 1) y color v2
        let v4 := findConnectedPuyos g fuel x (y + 1) color v3
        findConnectedPuyos g fuel x (y - 1) color v4

/-- One cell visit of the match scan inside `checkAndUpdateChain`
(`src/app/page.tsx` lines 214–224): a non-empty cell's connected region is
computed; regions of size ≥ 4 are added to the matched set and raise the
`hasMatches` flag. -/
def scanStep (g : Grid) (acc : Finset (Int × Int) × Bool) (y x : Nat) :
    Finset (Int × Int) × Bool :=
  if getCell g y x ≠ none then
    if 4 ≤ (findConnectedPuyos g (GRID_ROWS * GRID_COLS + 1) (Int.ofNat x) (Int.ofNat y)
        (getCell g y x) ∅).card then
      (acc.1 ∪ findConnectedPuyos g (GRID_ROWS * GRID_COLS + 1) (Int.ofNat x) (Int.ofNat y)
        (getCell g y x) ∅, true)
    else acc
  else acc

/-- The full match scan of one resolver pass: every cell in row-major order,
starting from an empty matched set and `hasMatches = false`. -/
def scanGrid (g : Grid) : Finset (Int × Int) × Bool :=
  (List.range GRID_ROWS).foldl
    (fun acc y => (List.range GRID_COLS).foldl (fun acc2 x => scanStep g acc2 y x) acc)
    (∅, false)

/-- Clearing the matched cells (`matchedPuyos.forEach` writing `null`,
`src/app/page.tsx` lines 229–232), written pointwise: the assignment order of
the `forEach` is irrelevant since every matched coordinate is set to empty. -/
def clearCells (g : Grid) (m : Finset (Int × Int)) : Grid :=
  (List.range GRID_ROWS).map (fun y =>
    (List.range GRID_COLS).map (fun x =>
      if (Int.ofNat x, Int.ofNat y) ∈ m then none else getCell g y x))

/-- The mutable state threaded through the resolver loop of
`applyGravityAndCheck`: the working grid, the chain counter of this
resolution sequence, and the session score. -/
structure ResolveState where
  grid : Grid
  chainCount : Nat
  score : Nat
deriving DecidableEq, Repr

/-- One call of `checkAndUpdateChain` (`src/app/page.tsx` lines 209–254):
scan; if any region of size ≥ 4 exists, bump the chain counter, delete the
matched cells, add `puyosCleared * 10 * 2^(chainCount-1) +
max(0, puyosCleared-4) * 5` to the score (natural-number subtraction is
exactly `Math.max(0, puyosCleared - 4)`), and re-apply gravity.  The returned
flag is `hasMatches`. -/
def resolveStep (st : ResolveState) : ResolveState × Bool :=
  let matched := (scanGrid st.grid).1
  let hasMatches := (scanGrid st.grid).2
  if hasMatches then
    let chainCount := st.chainCount + 1
    let puyosCleared := matched.card
    let chainMultiplier := 2 ^ (chainCount - 1)
    let groupSizeBonus := (puyosCleared - 4) * 5
    let points := puyosCleared * 10 * chainMultiplier + groupSizeBonus
    ({ grid := applyGravity (clearCells st.grid matched),
       chainCount := chainCount,
       score := st.score + points }, true)
  else (st, false)

/-- The `do … while (hasMatches)` loop of `applyGravityAndCheck`, with a
structural fuel bound; `GRID_ROWS * GRID_COLS` iterations are far more than
the loop can ever use, since each clearing pass deletes at least 4 occupied
cells of the 12×6 grid. -/
def resolveLoop : Nat → ResolveState → ResolveState
  | 0, st => st
  | fuel + 1, st =>
      let s := resolveStep st
      if s.2 then resolveLoop fuel s.1 else s.1

/-- `applyGravityAndCheck` (`src/app/page.tsx` lines 203–273) up to its state
writes: gravity is applied to the just-locked grid, then the detect → clear →
gravity loop runs to completion, yielding the settled grid, the chain count
and the accumulated session score. -/
def applyGravityAndCheck (g : Grid) (score : Nat) : ResolveState :=
  resolveLoop (GRID_ROWS * GRID_COLS) { grid := applyGravity g, chainCount := 0, score := score }

/-- The game-over check at the end of `applyGravityAndCheck` (lines 267–270):
`setGameState('over')` exactly when some cell of row index 1 of the resolved
grid is non-null; otherwise the phase is left as it was. -/
def gameStateAfterResolve (g : Grid) (score : Nat) (gs : GameState) : GameState :=
  if ((applyGravityAndCheck g score).grid.getD 1 []).any (fun c => c.isSome) then
    GameState.over
  else gs

/-- The session-level state of the component (`src/app/page.tsx` lines
48–64): every `useState` field the engine owns. -/
structure Session where
  grid : Grid
  gameState : GameState
  score : Nat
  currentPuyo : Option PuyoPair
  nextPuyos : List PuyoPair
  chainCounter : Nat
  isPaused : Bool
  highScore : Nat
  fallSpeed : ℚ
  heldPuyo : Option PuyoPair
  canHold : Bool
  isAnimating : Bool

/-- `togglePause` (`src/app/page.tsx` lines 132–134): `setIsPaused(!isPaused)`
with no other state write and no phase check. -/
def togglePause (s : Session) : Session :=
  { s with isPaused := !s.isPaused }

/-- The number of non-empty cells of the 12×6 board. -/
def occupiedCount (g : Grid) : Nat :=
  ((Finset.range GRID_ROWS ×ˢ Finset.range GRID_COLS).filter
    (fun p => (getCell g p.1 p.2).isSome = true)).card

/-- The spec's per-chain-step score formula,
`clearedCount * 10 * 2^(chainStep-1) + max(0, clearedCount-4) * 5`. -/
def specStepScore (clearedCount chainStep : Nat) : Int :=
  clearedCount * 10 * 2 ^ (chainStep - 1) + max 0 ((clearedCount : Int) - 4) * 5

/-- The spec's reading of `isValidPlacement`: both the anchor cell and the
offset cell are within grid bounds and both target cells are empty. -/
def isValidPlacementSpec (g : Grid) (p : PuyoPair) : Prop :=
  inBoundsI p.x p.y ∧
  inBoundsI (getSecondPuyoPosition p.x p.y p.rotation).1
    (getSecondPuyoPosition p.x p.y p.rotation).2 ∧
  getCellI g p.y p.x = none ∧
  getCellI g (getSecondPuyoPosition p.x p.y p.rotation).2
    (getSecondPuyoPosition p.x p.y p.rotation).1 = none

/-- Soundness invariant of the match scan: every matched coordinate is an
in-range occupied cell, and the `hasMatches` flag implies at least 4 matched
cells. -/
def scanSound (g : Grid) (acc : Finset (Int × Int) × Bool) : Prop :=
  (∀ p ∈ acc.1, 0 ≤ p.1 ∧ p.1 < (GRID_COLS : Int) ∧ 0 ≤ p.2 ∧ p.2 < (GRID_ROWS : Int) ∧
    (getCellI g p.2 p.1).isSome = true) ∧
  (acc.2 = true → 4 ≤ acc.1.card)

/-- The intended value of cell `y` after the inner gravity loop has processed
rows `n-1 … 0` of column `c` with the write cursor starting at `w`. -/
def colSpecVal (c : List Cell) (n w y : Nat) : Cell :=
  if w < y then c.getD y none
  else if w + 1 - ((c.take n).filter Option.isSome).length ≤ y then
    ((c.take n).filter Option.isSome).getD
      (y - (w + 1 - ((c.take n).filter Option.isSome).length)) none
  else if y < n then none
  else c.getD y none

/-- A settled board whose bottom row holds four adjacent red puyos. -/
def sampleMatchGrid : Grid :=
  List.replicate 11 (List.replicate 6 (none : Cell)) ++
    [[some .red, some .red, some .red, some .red, none, none]]

/-- A settled board whose bottom row holds five red puyos. -/
def sampleFiveGrid : Grid :=
  List.replicate 11 (List.replicate 6 (none : Cell)) ++
    [[some .red, some .red, some .red, some .red, some .red, none]]

/-- A settled board with column 2 filled from row 2 to the bottom with
alternating colors (no 4-group), and row 1 empty. -/
def sampleStackGrid : Grid :=
  List.replicate 2 (List.replicate 6 (none : Cell)) ++
    (List.range 10).map (fun i =>
      [none, none, some (if i % 2 = 0 then PuyoColor.red else PuyoColor.blue), none, none, none])

/-- A board with a floating puyo: column 0 has a red cell at the top and
nothing below. -/
def sampleGapGrid : Grid :=
  [some (PuyoColor.red), none, none, none, none, none] ::
    List.replicate 11 (List.replicate 6 (none : Cell))

/-! ### List index helpers -/

theorem getD_set_ne {α : Type} (l : List α) (i j : Nat) (v d : α) (h : i ≠ j) :
    (l.set i v).getD j d = l.getD j d := by
  simp [List.getD, List.getElem?_set_ne h]

theorem getD_set_self {α : Type} (l : List α) (i : Nat) (v d : α) (h : i < l.length) :
    (l.set i v).getD i d = v := by
  simp [List.getD, List.getElem?_set_self, h]

theorem take_set_of_le {α : Type} (l : List α) (i n : Nat) (v : α) (h : n ≤ i) :
    (l.set i v).take n = l.take n := by
  apply List.ext_getElem?
  intro j
  rw [List.getElem?_take, List.getElem?_take]
  by_cases hj : j < n
  · simp only [if_pos hj]
    exact List.getElem?_set_ne (by omega)
  · simp [hj]

theorem take_succ_getD {α : Type} (l : List α) (n : Nat) (d : α) (h : n < l.length) :
    l.take (n + 1) = l.take n ++ [l.getD n d] := by
  rw [List.take_succ]
  congr 1
  rw [List.getElem?_eq_getElem h]
  simp [List.getD_eq_getElem?_getD, List.getElem?_eq_getElem h]

/-! ### Characterization of the per-column gravity loop -/

theorem colLoop_spec (n : Nat) : ∀ (c : List Cell) (w : Nat),
    n ≤ c.length → n ≤ w + 1 → w < c.length →
    (colLoop n c w).1.length = c.length ∧
    (colLoop n c w).2 = w - ((c.take n).filter Option.isSome).length ∧
    ∀ y, y < c.length → (colLoop n c w).1.getD y none = colSpecVal c n w y := by
  induction n with
  | zero =>
    intro c w _ _ _
    refine ⟨rfl, by simp [colLoop], ?_⟩
    intro y hy
    simp only [colLoop, colSpecVal, List.take_zero, List.filter_nil, List.length_nil]
    split_ifs <;> first | rfl | omega
  | succ n ih =>
    intro c w h1 h2 h3
    have hn : n < c.length := by omega
    have hkn : ((c.take n).filter Option.isSome).length ≤ n := by
      calc ((c.take n).filter Option.isSome).length ≤ (c.take n).length :=
            List.length_filter_le _ _
        _ ≤ n := by simp [List.length_take]
    have hstep : colLoop (n + 1) c w = colLoop n (colStep c n w).1 (colStep c n w).2 := rfl
    cases hcn : c.getD n none with
    | none =>
      have hs : colStep c n w = (c, w) := by
        unfold colStep
        rw [hcn]
      have hfil : (c.take (n + 1)).filter Option.isSome =
          (c.take n).filter Option.isSome := by
        rw [take_succ_getD c n none hn, hcn, List.filter_append]
        simp [Option.isSome]
      obtain ⟨L, W, V⟩ := ih c w (by omega) (by omega) h3
      rw [hstep, hs]
      refine ⟨L, by rw [hfil]; exact W, ?_⟩
      intro y hy
      rw [V y hy]
      simp only [colSpecVal, hfil]
      split_ifs with g1 g2 g3 g4
      any_goals rfl
      any_goals omega
      all_goals
        have hyn : y = n := by omega
        rw [hyn, hcn]
    | some v =>
      have hnw : n ≤ w := by omega
      set c2 : List Cell := (colStep c n w).1 with hc2def
      have hsnd : (colStep c n w).2 = w - 1 := by
        unfold colStep
        rw [hcn]
      have hc2 : c2 = if w ≠ n then (c.set w (some v)).set n none else c.set w (some v) := by
        rw [hc2def]
        unfold colStep
        rw [hcn]
      have hlen2 : c2.length = c.length := by
        rw [hc2]; split_ifs <;> simp
      have htake2 : c2.take n = c.take n := by
        rw [hc2]; split_ifs with h
        · rw [take_set_of_le _ _ _ _ (le_refl n), take_set_of_le _ _ _ _ hnw]
        · rw [take_set_of_le _ _ _ _ hnw]
      have hget2 : ∀ y, y < c.length →
          c2.getD y none =
            if w ≠ n ∧ y = n then none
            else if y = w then some v
            else c.getD y none := by
        intro y hy
        rw [hc2]
        by_cases hwn : w = n
        · simp only [hwn, ne_eq, not_true_eq_false, if_false, false_and, if_neg]
          by_cases hyw : y = n
          · rw [hyw, if_pos rfl]
            exact getD_set_self _ _ _ _ (by omega)
          · rw [if_neg hyw, getD_set_ne _ _ _ _ _ (fun h => hyw h.symm)]
        · rw [if_pos hwn]
          by_cases hyn : y = n
          · rw [if_pos ⟨hwn, hyn⟩, hyn]
            exact getD_set_self _ _ _ _ (by simp [List.length_set]; omega)
          · rw [if_neg (by simp [hyn]), getD_set_ne _ _ _ _ _ (fun h => hyn h.symm)]
            by_cases hyw : y = w
            · rw [if_pos hyw, hyw]
              exact getD_set_self _ _ _ _ (by omega)
            · rw [if_neg hyw, getD_set_ne _ _ _ _ _ (fun h => hyw h.symm)]
      have hfil : (c.take (n + 1)).filter Option.isSome =
          (c.take n).filter Option.isSome ++ [some v] := by
        rw [take_succ_getD c n none hn, hcn, List.filter_append]
        simp [Option.isSome]
      obtain ⟨L, W, V⟩ := ih c2 (w - 1) (by omega) (by omega) (by omega)
      rw [hstep, hsnd]
      rw [htake2] at W
      constructor
      · rw [L, hlen2]
      constructor
      · rw [W, hfil]
        simp only [List.length_append, List.length_singleton]
        omega
      intro y hy
      rw [V y (by omega)]
      simp only [colSpecVal, htake2, hfil, List.length_append, List.length_singleton]
      have hgy := hget2 y hy
      set nn := (c.take n).filter Option.isSome with hnn
      set k := nn.length with hk
      split_ifs with g1 g2 g3 g4 g5 g6 g7 g8 g9 g10 g11 g12
      any_goals omega
      -- y strictly below the write start: both sides untouched
      · rw [hgy, if_neg (by rintro ⟨h1', h2'⟩; omega), if_neg (by omega)]
      -- y = w: the bottom-most non-empty cell of the processed prefix
      · rw [hgy, if_neg (by rintro ⟨h1', h2'⟩; omega), if_pos (by omega),
          List.getD_append_right _ _ _ _ (by omega)]
        have hidx : y - (w + 1 - (k + 1)) - nn.length = 0 := by omega
        rw [hidx]
        rfl
      -- y inside the compacted block shared by both formulations
      · have hidx : y - (w - 1 + 1 - k) = y - (w + 1 - (k + 1)) := by omega
        rw [hidx, List.getD_append _ _ _ _ (by omega)]
      -- y emptied by both formulations
      · rfl
      -- degenerate corner w = n = y = 0 with an empty compacted block
      · rw [hgy, if_neg (by rintro ⟨h1', h2'⟩; omega), if_pos (by omega),
          List.getD_append_right _ _ _ _ (by omega)]
        have hidx : y - (w + 1 - (k + 1)) - nn.length = 0 := by omega
        rw [hidx]
        rfl
      -- y = n, freshly emptied by this step
      · rw [hgy, if_pos ⟨by omega, by omega⟩]
      -- y between the processed prefix and the compacted block: untouched
      · rw [hgy, if_neg (by rintro ⟨h1', h2'⟩; omega), if_neg (by omega)]

theorem getD_replicate {α : Type} (n : Nat) (a d : α) (i : Nat) (h : i < n) :
    (List.replicate n a).getD i d = a := by
  simp [List.getD, List.getElem?_replicate, h]

/-- The inner gravity loop compacts a full column: the non-empty cells keep
their top-to-bottom order and sink to the lowest rows, empties fill the top. -/
theorem gravityColumn_eq (c : List Cell) (h : c.length = GRID_ROWS) :
    gravityColumn c =
      List.replicate (GRID_ROWS - (c.filter Option.isSome).length) none ++
        c.filter Option.isSome := by
  have hR : GRID_ROWS = 12 := rfl
  have hkR : (c.filter Option.isSome).length ≤ GRID_ROWS := by
    rw [← h]; exact List.length_filter_le _ _
  obtain ⟨L, W, V⟩ := colLoop_spec GRID_ROWS c (GRID_ROWS - 1) (by omega) (by omega) (by omega)
  have htake : c.take GRID_ROWS = c := by rw [← h]; exact List.take_length c
  unfold gravityColumn
  apply List.ext_getElem
  · rw [L, h]
    simp only [List.length_append, List.length_replicate]
    omega
  · intro i h1 h2
    have hi : i < c.length := by rw [L] at h1; exact h1
    rw [← List.getD_eq_getElem _ none h1, ← List.getD_eq_getElem _ none h2, V i hi]
    unfold colSpecVal
    rw [htake]
    split_ifs with q1 q2 q3
    · omega
    · rw [List.getD_append_right _ _ _ _ (by simp only [List.length_replicate]; omega)]
      simp only [List.length_replicate]
      have hidx : i - (GRID_ROWS - 1 + 1 - (c.filter Option.isSome).length) =
          i - (GRID_ROWS - (c.filter Option.isSome).length) := by omega
      rw [hidx]
    · rw [List.getD_append _ _ _ _ (by simp only [List.length_replicate]; omega),
        getD_replicate _ _ _ _ (by omega)]
    · omega

/-- `gravityColumn` preserves the length of a column. -/
theorem gravityColumn_length (c : List Cell) : (gravityColumn c).length = c.length := by
  have aux : ∀ n (c' : List Cell) w, (colLoop n c' w).1.length = c'.length := by
    intro n
    induction n with
    | zero => intro c' w; rfl
    | succ n ih =>
      intro c' w
      have : colLoop (n + 1) c' w = colLoop n (colStep c' n w).1 (colStep c' n w).2 := rfl
      rw [this, ih]
      unfold colStep
      cases c'.getD n none with
      | some v =>
        simp only []
        split_ifs <;> simp [List.length_set]
      | none => rfl
  exact aux GRID_ROWS c (GRID_ROWS - 1)

/-! ### Column access on grids -/

theorem length_getCol (g : Grid) (x : Nat) : (getCol g x).length = g.length :=
  List.length_map _ _

theorem getCol_getD (g : Grid) (x y : Nat) (hy : y < g.length) :
    (getCol g x).getD y none = getCell g y x := by
  unfold getCol getCell
  rw [List.getD_eq_getElem _ none (by simp [hy]), List.getElem_map]
  rw [List.getD_eq_getElem _ [] hy]

theorem length_setCol (g : Grid) (x : Nat) (col : List Cell) (h : col.length = g.length) :
    (setCol g x col).length = g.length := by
  unfold setCol
  rw [List.length_zipWith, h, min_self]

theorem WF_setCol (g : Grid) (x : Nat) (col : List Cell) (hw : WFGrid g)
    (h : col.length = g.length) : WFGrid (setCol g x col) := by
  obtain ⟨hlen, hrow⟩ := hw
  refine ⟨by rw [length_setCol g x col h, hlen], ?_⟩
  intro row hr
  obtain ⟨i, hi, hget⟩ := List.mem_iff_getElem.mp hr
  unfold setCol at hget
  rw [List.getElem_zipWith] at hget
  rw [← hget]
  rw [List.length_set]
  exact hrow _ (List.getElem_mem _)

theorem getCol_setCol_ne (g : Grid) (x x' : Nat) (col : List Cell)
    (h : col.length = g.length) (hne : x' ≠ x) : getCol (setCol g x col) x' = getCol g x' := by
  unfold getCol setCol
  apply List.ext_getElem
  · simp [List.length_zipWith, h]
  · intro i h1 h2
    rw [List.getElem_map, List.getElem_map, List.getElem_zipWith]
    exact getD_set_ne _ _ _ _ _ (Ne.symm hne)

theorem getCol_setCol_self (g : Grid) (x : Nat) (col : List Cell)
    (h : col.length = g.length) (hx : ∀ row ∈ g, x < row.length) :
    getCol (setCol g x col) x = col := by
  unfold getCol setCol
  apply List.ext_getElem
  · simp [List.length_zipWith, h]
  · intro i h1 h2
    rw [List.getElem_map, List.getElem_zipWith]
    exact getD_set_self _ _ _ _ (hx _ (List.getElem_mem _))

/-- The column-by-column fold of `applyGravity`: each processed column is
compacted, unprocessed columns are untouched. -/
theorem applyGravity_foldl_aux (l : List Nat) :
    ∀ g : Grid, WFGrid g → (∀ i ∈ l, i < GRID_COLS) → l.Nodup →
    WFGrid (l.foldl (fun acc x => setCol acc x (gravityColumn (getCol acc x))) g) ∧
    ∀ x, getCol (l.foldl (fun acc x => setCol acc x (gravityColumn (getCol acc x))) g) x =
      if x ∈ l then gravityColumn (getCol g x) else getCol g x := by
  induction l with
  | nil =>
    intro g hw _ _
    exact ⟨hw, fun x => by simp⟩
  | cons i l ih =>
    intro g hw hl hnd
    have hi : i < GRID_COLS := hl i (List.mem_cons_self i l)
    have hcollen : (gravityColumn (getCol g i)).length = g.length := by
      rw [gravityColumn_length, length_getCol]
    have hw' : WFGrid (setCol g i (gravityColumn (getCol g i))) :=
      WF_setCol g i _ hw hcollen
    obtain ⟨hin, hnd'⟩ := List.nodup_cons.mp hnd
    obtain ⟨W1, W2⟩ := ih (setCol g i (gravityColumn (getCol g i))) hw'
      (fun j hj => hl j (List.mem_cons_of_mem _ hj)) hnd'
    rw [List.foldl_cons]
    refine ⟨W1, fun x => ?_⟩
    rw [W2 x]
    by_cases hx : x ∈ l
    · have hxi : x ≠ i := fun h => hin (h ▸ hx)
      rw [if_pos hx, if_pos (List.mem_cons_of_mem _ hx),
        getCol_setCol_ne g i x _ hcollen hxi]
    · by_cases hxi : x = i
      · subst hxi
        rw [if_neg hx, if_pos (List.mem_cons_self x l),
          getCol_setCol_self g x _ hcollen (fun row hr => by rw [hw.2 row hr]; exact hi)]
      · rw [if_neg hx, if_neg (by simp [hxi, hx]),
          getCol_setCol_ne g i x _ hcollen hxi]

/-- `applyGravity` preserves the grid dimensions. -/
theorem WF_applyGravity (g : Grid) (hw : WFGrid g) : WFGrid (applyGravity g) :=
  (applyGravity_foldl_aux (List.range GRID_COLS) g hw
    (fun i hi => List.mem_range.mp hi) (List.nodup_range _)).1

/-- Column `x` of `applyGravity g` is the compaction of column `x` of `g`. -/
theorem getCol_applyGravity (g : Grid) (hw : WFGrid g) (x : Nat) (hx : x < GRID_COLS) :
    getCol (applyGravity g) x = gravityColumn (getCol g x) := by
  have := (applyGravity_foldl_aux (List.range GRID_COLS) g hw
    (fun i hi => List.mem_range.mp hi) (List.nodup_range _)).2 x
  unfold applyGravity
  rw [this, if_pos (List.mem_range.mpr hx)]

/-- Two grids of the fixed dimensions with equal columns are equal. -/
theorem grid_ext_cols (g h : Grid) (hwg : WFGrid g) (hwh : WFGrid h)
    (hcols : ∀ x, x < GRID_COLS → getCol g x = getCol h x) : g = h := by
  apply List.ext_getElem (by rw [hwg.1, hwh.1])
  intro y hy1 hy2
  apply List.ext_getElem (by rw [hwg.2 _ (List.getElem_mem _), hwh.2 _ (List.getElem_mem _)])
  intro x hx1 hx2
  have hx : x < GRID_COLS := by
    rw [hwg.2 _ (List.getElem_mem _)] at hx1
    exact hx1
  have hcol := congrArg (fun c => c.getD y none) (hcols x hx)
  simp only [] at hcol
  rw [getCol_getD g x y hy1, getCol_getD h x y hy2] at hcol
  unfold getCell at hcol
  rw [List.getD_eq_getElem _ [] hy1, List.getD_eq_getElem _ [] hy2,
    List.getD_eq_getElem _ none hx1, List.getD_eq_getElem _ none hx2] at hcol
  exact hcol

/-- Every cell of the compacted `filter` output is non-empty, so a second
filter pass changes nothing. -/
theorem filter_isSome_self (c : List Cell) :
    (c.filter Option.isSome).filter Option.isSome = c.filter Option.isSome :=
  List.filter_eq_self.mpr (fun a ha => List.of_mem_filter ha)

/-- Compacting an already-compacted column changes nothing. -/
theorem gravityColumn_idem (c : List Cell) (h : c.length = GRID_ROWS) :
    gravityColumn (gravityColumn c) = gravityColumn c := by
  have hk : (c.filter Option.isSome).length ≤ GRID_ROWS := by
    rw [← h]; exact List.length_filter_le _ _
  have h1 : (gravityColumn c).length = GRID_ROWS := by rw [gravityColumn_length, h]
  rw [gravityColumn_eq _ h1, gravityColumn_eq _ h]
  rw [List.filter_append, List.filter_replicate, filter_isSome_self]
  simp only [Option.isSome_none, Bool.false_eq_true, if_false, List.nil_append]

theorem applyGravity_idem (g : Grid) (hw : WFGrid g) :
    applyGravity (applyGravity g) = applyGravity g := by
  have hw' := WF_applyGravity g hw
  apply grid_ext_cols _ _ (WF_applyGravity _ hw') hw'
  intro x hx
  rw [getCol_applyGravity _ hw' x hx, getCol_applyGravity _ hw x hx]
  exact gravityColumn_idem _ (by rw [length_getCol, hw.1])

/-! ### Counting occupied cells -/

theorem filter_length_sum {α : Type} (l : List α) (p : α → Bool) (d : α) :
    (l.filter p).length =
      ∑ i ∈ Finset.range l.length, if p (l.getD i d) = true then 1 else 0 := by
  induction l with
  | nil => simp
  | cons a t ih =>
    rw [List.length_cons, Finset.sum_range_succ']
    simp only [List.getD_cons_succ, List.getD_cons_zero]
    rw [← ih]
    by_cases h : p a <;> simp [List.filter_cons, h]

theorem occ_eq_sum_cols (g : Grid) (hw : WFGrid g) :
    occupiedCount g =
      ∑ x ∈ Finset.range GRID_COLS, ((getCol g x).filter Option.isSome).length := by
  unfold occupiedCount
  rw [Finset.card_filter, Finset.sum_product, Finset.sum_comm]
  apply Finset.sum_congr rfl
  intro x _
  rw [filter_length_sum (getCol g x) Option.isSome none, length_getCol, hw.1]
  apply Finset.sum_congr rfl
  intro y hy
  rw [getCol_getD g x y (by rw [hw.1]; exact Finset.mem_range.mp hy)]

theorem occ_le (g : Grid) : occupiedCount g ≤ GRID_ROWS * GRID_COLS := by
  unfold occupiedCount
  calc ((Finset.range GRID_ROWS ×ˢ Finset.range GRID_COLS).filter
        (fun p => (getCell g p.1 p.2).isSome = true)).card
      ≤ (Finset.range GRID_ROWS ×ˢ Finset.range GRID_COLS).card :=
        Finset.card_filter_le _ _
    _ = GRID_ROWS * GRID_COLS := by
        rw [Finset.card_product, Finset.card_range, Finset.card_range]

theorem occ_applyGravity (g : Grid) (hw : WFGrid g) :
    occupiedCount (applyGravity g) = occupiedCount g := by
  rw [occ_eq_sum_cols _ (WF_applyGravity g hw), occ_eq_sum_cols _ hw]
  apply Finset.sum_congr rfl
  intro x hx
  rw [getCol_applyGravity g hw x (Finset.mem_range.mp hx),
    gravityColumn_eq _ (by rw [length_getCol, hw.1]),
    List.filter_append, List.filter_replicate, filter_isSome_self]
  simp

/-! ### Clearing matched cells -/

theorem WF_clearCells (g : Grid) (m : Finset (Int × Int)) : WFGrid (clearCells g m) := by
  constructor
  · simp [clearCells]
  · intro row hr
    unfold clearCells at hr
    obtain ⟨y, _, hf⟩ := List.mem_map.mp hr
    rw [← hf]
    simp

theorem getCell_clearCells (g : Grid) (m : Finset (Int × Int)) (y x : Nat)
    (hy : y < GRID_ROWS) (hx : x < GRID_COLS) :
    getCell (clearCells g m) y x =
      if (Int.ofNat x, Int.ofNat y) ∈ m then none else getCell g y x := by
  unfold clearCells getCell
  rw [List.getD_eq_getElem _ [] (by simpa using hy), List.getElem_map,
    List.getD_eq_getElem _ none (by simpa using hx), List.getElem_map,
    List.getElem_range, List.getElem_range]

theorem occ_clearCells (g : Grid) (m : Finset (Int × Int))
    (hm : ∀ p ∈ m, 0 ≤ p.1 ∧ p.1 < (GRID_COLS : Int) ∧ 0 ≤ p.2 ∧ p.2 < (GRID_ROWS : Int) ∧
      (getCellI g p.2 p.1).isSome = true) :
    occupiedCount (clearCells g m) + m.card = occupiedCount g := by
  classical
  unfold occupiedCount
  set S := (Finset.range GRID_ROWS ×ˢ Finset.range GRID_COLS).filter
    (fun p => (getCell g p.1 p.2).isSome = true) with hS
  set T := m.image (fun p => (p.2.toNat, p.1.toNat)) with hT
  have hTcard : T.card = m.card := by
    apply Finset.card_image_of_injOn
    intro p hp q hq heq
    obtain ⟨hp1, _, hp3, _, _⟩ := hm p hp
    obtain ⟨hq1, _, hq3, _, _⟩ := hm q hq
    have e1 : p.2.toNat = q.2.toNat := congrArg Prod.fst heq
    have e2 : p.1.toNat = q.1.toNat := congrArg Prod.snd heq
    have : p.1 = q.1 := by omega
    have : p.2 = q.2 := by omega
    exact Prod.ext ‹p.1 = q.1› ‹p.2 = q.2›
  have hTS : T ⊆ S := by
    intro t ht
    obtain ⟨p, hp, hf⟩ := Finset.mem_image.mp ht
    obtain ⟨h1, h2, h3, h4, h5⟩ := hm p hp
    rw [Finset.mem_filter, Finset.mem_product, ← hf]
    have hI : getCellI g p.2 p.1 = getCell g p.2.toNat p.1.toNat := by
      unfold getCellI
      rw [if_pos ⟨h3, h1⟩]
    refine ⟨⟨Finset.mem_range.mpr (by omega), Finset.mem_range.mpr (by omega)⟩, ?_⟩
    rw [← hI]
    exact h5
  have hclear : (Finset.range GRID_ROWS ×ˢ Finset.range GRID_COLS).filter
      (fun p => (getCell (clearCells g m) p.1 p.2).isSome = true) = S \ T := by
    apply Finset.ext
    intro t
    rw [Finset.mem_filter, Finset.mem_sdiff, hS, Finset.mem_filter]
    constructor
    · rintro ⟨htp, hocc⟩
      obtain ⟨hty, htx⟩ := Finset.mem_product.mp htp
      rw [getCell_clearCells g m t.1 t.2 (Finset.mem_range.mp hty) (Finset.mem_range.mp htx)]
        at hocc
      split_ifs at hocc with hmem
      · simp at hocc
      · refine ⟨⟨htp, hocc⟩, ?_⟩
        intro hTmem
        obtain ⟨p, hp, hf⟩ := Finset.mem_image.mp hTmem
        obtain ⟨h1, _, h3, _, _⟩ := hm p hp
        apply hmem
        have e1 : p.2.toNat = t.1 := congrArg Prod.fst hf
        have e2 : p.1.toNat = t.2 := congrArg Prod.snd hf
        have ex : Int.ofNat t.2 = p.1 := by rw [← e2]; exact Int.toNat_of_nonneg h1
        have ey : Int.ofNat t.1 = p.2 := by rw [← e1]; exact Int.toNat_of_nonneg h3
        rw [ex, ey]
        exact hp
    · rintro ⟨⟨htp, hocc⟩, hne⟩
      obtain ⟨hty, htx⟩ := Finset.mem_product.mp htp
      refine ⟨htp, ?_⟩
      rw [getCell_clearCells g m t.1 t.2 (Finset.mem_range.mp hty) (Finset.mem_range.mp htx)]
      rw [if_neg ?_]
      · exact hocc
      intro hmem
      apply hne
      rw [hT, Finset.mem_image]
      exact ⟨(Int.ofNat t.2, Int.ofNat t.1), hmem, by simp⟩
  rw [hclear, Finset.card_sdiff hTS, hTcard]
  have := Finset.card_le_card hTS
  omega

/-! ### Soundness of the match scan -/

/-- Every coordinate the flood fill adds to the visited set passed the guard:
it is in range and its cell holds the start color. -/
theorem findConnectedPuyos_sound (g : Grid) (color : Cell) (P : Int × Int → Prop)
    (hP : ∀ x y : Int, 0 ≤ x → x < (GRID_COLS : Int) → 0 ≤ y → y < (GRID_ROWS : Int) →
      getCellI g y x = color → P (x, y)) :
    ∀ (fuel : Nat) (x y : Int) (v : Finset (Int × Int)), (∀ p ∈ v, P p) →
      ∀ p ∈ findConnectedPuyos g fuel x y color v, P p := by
  intro fuel
  induction fuel with
  | zero =>
    intro x y v hv p hp
    exact hv p hp
  | succ fuel ih =>
    intro x y v hv p hp
    rw [findConnectedPuyos] at hp
    split_ifs at hp with hguard
    · exact hv p hp
    · push_neg at hguard
      obtain ⟨h1, h2, h3, h4, h5, h6⟩ := hguard
      have hv1 : ∀ q ∈ insert (x, y) v, P q := by
        intro q hq
        rcases Finset.mem_insert.mp hq with rfl | hq
        · exact hP x y (by omega) (by omega) (by omega) (by omega) h5
        · exact hv q hq
      have hv2 := fun q hq => ih (x + 1) y _ hv1 q hq
      have hv3 := fun q hq => ih (x - 1) y _ hv2 q hq
      have hv4 := fun q hq => ih x (y + 1) _ hv3 q hq
      exact ih x (y - 1) _ hv4 p hp

/-- A fold preserves any invariant its step preserves. -/
theorem foldl_invariant {α β : Type} (P : β → Prop) (f : β → α → β) :
    ∀ (l : List α) (init : β), (∀ b a, P b → P (f b a)) → P init → P (l.foldl f init) := by
  intro l
  induction l with
  | nil =>
    intro init _ h0
    exact h0
  | cons a t ih =>
    intro init hstep h0
    exact ih _ hstep (hstep _ _ h0)

theorem scanStep_sound (g : Grid) (acc : Finset (Int × Int) × Bool) (y x : Nat)
    (h : scanSound g acc) : scanSound g (scanStep g acc y x) := by
  unfold scanStep
  split_ifs with hc hcard
  · constructor
    · intro p hp
      rcases Finset.mem_union.mp hp with hp | hp
      · exact h.1 p hp
      · refine findConnectedPuyos_sound g (getCell g y x)
          (fun q => 0 ≤ q.1 ∧ q.1 < (GRID_COLS : Int) ∧ 0 ≤ q.2 ∧ q.2 < (GRID_ROWS : Int) ∧
            (getCellI g q.2 q.1).isSome = true)
          ?_ _ _ _ ∅ (by simp) p hp
        intro x' y' h1 h2 h3 h4 h5
        refine ⟨h1, h2, h3, h4, ?_⟩
        rw [h5, Option.isSome_iff_ne_none]
        exact hc
    · intro _
      calc 4 ≤ (findConnectedPuyos g (GRID_ROWS * GRID_COLS + 1) (Int.ofNat x) (Int.ofNat y)
            (getCell g y x) ∅).card := hcard
        _ ≤ (acc.1 ∪ _).card := Finset.card_le_card Finset.subset_union_right
  · exact h
  · exact h

theorem scanGrid_sound (g : Grid) : scanSound g (scanGrid g) := by
  unfold scanGrid
  apply foldl_invariant (scanSound g)
  · intro acc y hacc
    apply foldl_invariant (scanSound g)
    · intro acc2 x hacc2
      exact scanStep_sound g acc2 y x hacc2
    · exact hacc
  · exact ⟨by simp, by simp⟩

/-! ### The resolver loop -/

theorem resolveStep_false (st : ResolveState) (h : (scanGrid st.grid).2 = false) :
    resolveStep st = (st, false) := by
  simp only [resolveStep, h, Bool.false_eq_true, if_false]

theorem resolveStep_flag (st : ResolveState) : (resolveStep st).2 = (scanGrid st.grid).2 := by
  simp only [resolveStep]
  split_ifs with h
  · simp [h]
  · simp [eq_false_of_ne_true h]

theorem resolveStep_true_grid (st : ResolveState) (h : (scanGrid st.grid).2 = true) :
    (resolveStep st).1.grid = applyGravity (clearCells st.grid (scanGrid st.grid).1) := by
  simp only [resolveStep, h, if_true]

theorem resolveStep_true_chain (st : ResolveState) (h : (scanGrid st.grid).2 = true) :
    (resolveStep st).1.chainCount = st.chainCount + 1 := by
  simp only [resolveStep, h, if_true]

theorem resolveStep_true_score (st : ResolveState) (h : (scanGrid st.grid).2 = true) :
    (resolveStep st).1.score = st.score +
      ((scanGrid st.grid).1.card * 10 * 2 ^ (st.chainCount + 1 - 1) +
        ((scanGrid st.grid).1.card - 4) * 5) := by
  simp only [resolveStep, h, if_true]

theorem WF_resolveStep (st : ResolveState) (hw : WFGrid st.grid) :
    WFGrid (resolveStep st).1.grid := by
  cases h : (scanGrid st.grid).2 with
  | false => rw [resolveStep_false st h]; exact hw
  | true => rw [resolveStep_true_grid st h]; exact WF_applyGravity _ (WF_clearCells _ _)

/-- A clearing pass deletes at least 4 occupied cells. -/
theorem resolveStep_occ (st : ResolveState) (hw : WFGrid st.grid)
    (h : (scanGrid st.grid).2 = true) :
    occupiedCount (resolveStep st).1.grid + 4 ≤ occupiedCount st.grid := by
  rw [resolveStep_true_grid st h, occ_applyGravity _ (WF_clearCells _ _)]
  have hocc := occ_clearCells st.grid (scanGrid st.grid).1 (scanGrid_sound st.grid).1
  have hcard := (scanGrid_sound st.grid).2 h
  omega

theorem resolveLoop_invariants : ∀ (fuel : Nat) (st : ResolveState), WFGrid st.grid →
    occupiedCount st.grid < 4 * fuel →
    WFGrid (resolveLoop fuel st).grid ∧
    (scanGrid (resolveLoop fuel st).grid).2 = false ∧
    st.chainCount ≤ (resolveLoop fuel st).chainCount ∧
    4 * ((resolveLoop fuel st).chainCount - st.chainCount) ≤ occupiedCount st.grid := by
  intro fuel
  induction fuel with
  | zero =>
    intro st _ hocc
    exfalso
    omega
  | succ fuel ih =>
    intro st hw hocc
    cases hflag : (scanGrid st.grid).2 with
    | false =>
      have hstep := resolveStep_false st hflag
      have : resolveLoop (fuel + 1) st = st := by
        simp only [resolveLoop, hstep, Bool.false_eq_true, if_false]
      rw [this]
      exact ⟨hw, hflag, le_refl _, by omega⟩
    | true =>
      have hflag' : (resolveStep st).2 = true := by rw [resolveStep_flag]; exact hflag
      have hred : resolveLoop (fuel + 1) st = resolveLoop fuel (resolveStep st).1 := by
        simp only [resolveLoop, hflag', if_true]
      have hwf' : WFGrid (resolveStep st).1.grid := WF_resolveStep st hw
      have hocc' := resolveStep_occ st hw hflag
      have hchain := resolveStep_true_chain st hflag
      obtain ⟨w1, w2, w3, w4⟩ := ih (resolveStep st).1 hwf' (by omega)
      rw [hred]
      exact ⟨w1, w2, by omega, by omega⟩

/-- The resolver after a lock: the final grid is well-formed, contains no
further group of 4, and the chain count is bounded by the number of clearing
iterations the occupied cells can feed. -/
theorem applyGravityAndCheck_props (g : Grid) (score : Nat) (hw : WFGrid g) :
    WFGrid (applyGravityAndCheck g score).grid ∧
    (scanGrid (applyGravityAndCheck g score).grid).2 = false ∧
    4 * (applyGravityAndCheck g score).chainCount ≤ occupiedCount (applyGravity g) ∧
    (applyGravityAndCheck g score).chainCount ≤ GRID_ROWS * GRID_COLS := by
  have hRC : GRID_ROWS * GRID_COLS = 72 := rfl
  have hwg := WF_applyGravity g hw
  have hle := occ_le (applyGravity g)
  unfold applyGravityAndCheck
  obtain ⟨w1, w2, w3, w4⟩ := resolveLoop_invariants (GRID_ROWS * GRID_COLS)
    { grid := applyGravity g, chainCount := 0, score := score } hwg (by simp; omega)
  simp only [show ({ grid := applyGravity g, chainCount := 0, score := score } :
    ResolveState).chainCount = 0 from rfl, Nat.sub_zero] at w4
  exact ⟨w1, w2, by omega, by omega⟩

/-! ### Piece-level facts -/

theorem isValidMove_iff (g : Grid) (p : PuyoPair) :
    isValidMove g p = true ↔ isValidPlacementSpec g p := by
  unfold isValidMove isValidPlacementSpec inBoundsI
  rw [decide_eq_true_iff]
  tauto

/-- Every reachable active-piece position is either the spawn position or has
passed `isValidMove` against the current grid. -/
theorem reach_spawn_or_valid (g : Grid) (p : PuyoPair) (h : ReachablePiece g p) :
    (p.x = 2 ∧ p.y = 0 ∧ p.rotation = 0) ∨ isValidMove g p = true := by
  induction h with
  | spawn c1 c2 => exact Or.inl ⟨rfl, rfl, rfl⟩
  | move p d _ hv _ => exact Or.inr hv
  | rot p d _ hv _ => exact Or.inr hv

/-- On a settled grid whose row 1 is empty, the two cells below the spawn
position are empty (a non-empty cell in row 0 of a settled column forces the
whole column, in particular row 1, to be non-empty). -/
theorem settled_spawn_clear (g : Grid) (hw : WFGrid g) (hsettled : applyGravity g = g)
    (hrow1 : ∀ x, x < GRID_COLS → getCell g 1 x = none) :
    getCell g 0 2 = none ∧ getCell g 1 2 = none := by
  have hR : GRID_ROWS = 12 := rfl
  have hlen : (getCol g 2).length = GRID_ROWS := by rw [length_getCol, hw.1]
  have hcol : getCol g 2 =
      List.replicate (GRID_ROWS - ((getCol g 2).filter Option.isSome).length) none ++
        (getCol g 2).filter Option.isSome := by
    conv_lhs => rw [← hsettled]
    rw [getCol_applyGravity g hw 2 (by norm_num [GRID_COLS]), gravityColumn_eq _ hlen]
  have h12 : getCell g 1 2 = none := hrow1 2 (by norm_num [GRID_COLS])
  have hglen : g.length = 12 := hw.1
  refine ⟨?_, h12⟩
  set nn := (getCol g 2).filter Option.isSome with hnn
  have hk : nn.length ≤ 12 := by
    rw [hnn, ← hR, ← hlen]
    exact List.length_filter_le _ _
  by_cases hfull : nn.length = 12
  · exfalso
    have h1 : getCell g 1 2 = (getCol g 2).getD 1 none := (getCol_getD g 2 1 (by omega)).symm
    rw [hcol, hR, hfull] at h1
    simp only [Nat.sub_self, List.replicate_zero, List.nil_append] at h1
    have hmem : nn.getD 1 none ∈ nn := by
      rw [List.getD_eq_getElem _ none (by omega)]
      exact List.getElem_mem _
    have := List.of_mem_filter hmem
    rw [h12] at h1
    rw [← h1] at this
    simp at this
  · have h0 : getCell g 0 2 = (getCol g 2).getD 0 none := (getCol_getD g 2 0 (by omega)).symm
    rw [hcol] at h0
    rw [h0, List.getD_append _ _ _ _ (by simp only [List.length_replicate]; omega),
      getD_replicate _ _ _ _ (by omega)]

/-- `row.any` over a well-formed row, phrased with cell reads. -/
theorem any_row_iff (g : Grid) (hw : WFGrid g) (y : Nat) (hy : y < GRID_ROWS) :
    ((g.getD y []).any (fun c => c.isSome)) = true ↔
      ∃ x, x < GRID_COLS ∧ getCell g y x ≠ none := by
  have hrowmem : g.getD y [] ∈ g := by
    rw [List.getD_eq_getElem _ [] (by rw [hw.1]; omega)]
    exact List.getElem_mem _
  have hrowlen : (g.getD y []).length = GRID_COLS := hw.2 _ hrowmem
  rw [List.any_eq_true]
  constructor
  · rintro ⟨c, hc, hsome⟩
    obtain ⟨x, hx, hget⟩ := List.mem_iff_getElem.mp hc
    refine ⟨x, by omega, ?_⟩
    unfold getCell
    rw [List.getD_eq_getElem _ none hx, hget]
    exact Option.isSome_iff_ne_none.mp hsome
  · rintro ⟨x, hx, hne⟩
    refine ⟨getCell g y x, ?_, Option.isSome_iff_ne_none.mpr hne⟩
    unfold getCell
    rw [List.getD_eq_getElem _ none (by omega)]
    exact List.getElem_mem _

/-! ### The claims -/

/-- C1: each clearing step of the resolver adds exactly
`clearedCount * 10 * 2^(chainStep-1) + max(0, clearedCount-4) * 5` to the
session score, where `clearedCount` is the size of the whole matched set of
that pass (all simultaneously cleared regions together) and the chain step is
the incremented chain counter, starting at 1 on the first clear. -/
theorem claim_C1 (st : ResolveState) (h : (scanGrid st.grid).2 = true) :
    ((resolveStep st).1.score : Int) =
      (st.score : Int) + specStepScore (scanGrid st.grid).1.card (st.chainCount + 1) ∧
    (resolveStep st).1.chainCount = st.chainCount + 1 := by
  have h4 : 4 ≤ (scanGrid st.grid).1.card := (scanGrid_sound st.grid).2 h
  refine ⟨?_, resolveStep_true_chain st h⟩
  rw [resolveStep_true_score st h]
  unfold specStepScore
  rw [max_eq_right (by push_cast; omega)]
  push_cast [Nat.cast_sub h4]
  ring_nf

/-- C1 witness: a settled board with one five-cell red group; the resolver
clears it at chain step 1 for 5*10*1 + 5 = 55 points. -/
theorem claim_C1_witness :
    (scanGrid sampleFiveGrid).2 = true ∧
    (((resolveStep { grid := sampleFiveGrid, chainCount := 0, score := 0 }).1.score : Int) =
      ((0 : Nat) : Int) + specStepScore (scanGrid sampleFiveGrid).1.card (0 + 1) ∧
      (resolveStep { grid := sampleFiveGrid, chainCount := 0, score := 0 }).1.chainCount = 0 + 1) :=
  ⟨by decide, claim_C1 { grid := sampleFiveGrid, chainCount := 0, score := 0 } (by decide)⟩

/-- C2 counterexample: the claim asserts that a freshly spawned piece (anchor
at column 2, row 0, orientation 0) occupies two in-bounds empty cells, but its
orientation-0 second cell lies at row -1, above the grid, even on a fully
empty board; `isValidMove` itself rejects the spawn position. -/
theorem claim_C2_counterexample :
    ¬ isValidPlacementSpec createEmptyGrid
        (generatePuyoPairAt (some PuyoColor.red) (some PuyoColor.blue)) ∧
    (getSecondPuyoPosition 2 0 0).2 = -1 ∧
    isValidMove createEmptyGrid
      (generatePuyoPairAt (some PuyoColor.red) (some PuyoColor.blue)) = false := by
  refine ⟨?_, by decide, by decide⟩
  intro h
  have := h.2.1.2.2.1
  rw [show (getSecondPuyoPosition
    (generatePuyoPairAt (some PuyoColor.red) (some PuyoColor.blue)).x
    (generatePuyoPairAt (some PuyoColor.red) (some PuyoColor.blue)).y
    (generatePuyoPairAt (some PuyoColor.red) (some PuyoColor.blue)).rotation).2 = -1
    from by decide] at this
  omega

/-- C2 (amended): at any point of a piece's life over the current grid, the
active piece is either at the spawn position — anchor (2,0), orientation 0,
whose second cell lies above the grid — or at a position that passed
validation, i.e. both its cells are in bounds and empty. -/
theorem claim_C2 (g : Grid) (p : PuyoPair) (h : ReachablePiece g p) :
    (p.x = 2 ∧ p.y = 0 ∧ p.rotation = 0) ∨ isValidPlacementSpec g p := by
  rcases reach_spawn_or_valid g p h with hs | hv
  · exact Or.inl hs
  · exact Or.inr ((isValidMove_iff g p).mp hv)

/-- C2 witness: the freshly spawned piece is reachable and satisfies the
amended invariant through its spawn disjunct. -/
theorem claim_C2_witness :
    ReachablePiece createEmptyGrid (generatePuyoPairAt (some PuyoColor.red) (some PuyoColor.blue)) ∧
    (((generatePuyoPairAt (some PuyoColor.red) (some PuyoColor.blue)).x = 2 ∧
      (generatePuyoPairAt (some PuyoColor.red) (some PuyoColor.blue)).y = 0 ∧
      (generatePuyoPairAt (some PuyoColor.red) (some PuyoColor.blue)).rotation = 0) ∨
      isValidPlacementSpec createEmptyGrid
        (generatePuyoPairAt (some PuyoColor.red) (some PuyoColor.blue))) :=
  ⟨ReachablePiece.spawn _ _,
    claim_C2 createEmptyGrid _ (ReachablePiece.spawn _ _)⟩

/-- C3: a lock event hands `applyGravity grid` to the resolver loop (gravity
runs before the first match scan), that first-scanned grid is settled
(applying gravity to it again changes nothing), and after each clearing pass
the grid handed to the next scan is again `applyGravity` of the cleared
grid. -/
theorem claim_C3 (g : Grid) (score : Nat) (hw : WFGrid g) :
    applyGravityAndCheck g score =
      resolveLoop (GRID_ROWS * GRID_COLS)
        { grid := applyGravity g, chainCount := 0, score := score } ∧
    applyGravity (applyGravity g) = applyGravity g ∧
    ∀ st : ResolveState, (scanGrid st.grid).2 = true →
      (resolveStep st).1.grid = applyGravity (clearCells st.grid (scanGrid st.grid).1) :=
  ⟨rfl, applyGravity_idem g hw, fun st h => resolveStep_true_grid st h⟩

/-- C3 witness. -/
theorem claim_C3_witness :
    WFGrid sampleMatchGrid ∧
    applyGravity (applyGravity sampleMatchGrid) = applyGravity sampleMatchGrid :=
  ⟨by decide, (claim_C3 sampleMatchGrid 0 (by decide)).2.1⟩

/-- C4: from any session state the engine can reach (settled grid, empty
game-over row — otherwise the session would already be over — and an active
piece that is either freshly spawned or has passed validation), a rejected
down move leaves the piece where both cells written by `placePuyo` are inside
`[0,C) × [0,R)`; the out-of-bounds branch of a grid write is unreachable. -/
theorem claim_C4 (g : Grid) (p : PuyoPair) (hw : WFGrid g)
    (hsettled : applyGravity g = g)
    (hrow1 : ∀ x, x < GRID_COLS → getCell g 1 x = none)
    (hreach : ReachablePiece g p)
    (hrej : isValidMove g (movePuyoPos p MoveDir.down) = false) :
    inBoundsI (placePuyoTargets p).1.1 (placePuyoTargets p).1.2 ∧
    inBoundsI (placePuyoTargets p).2.1 (placePuyoTargets p).2.2 := by
  rcases reach_spawn_or_valid g p hreach with hspawn | hvalid
  · exfalso
    obtain ⟨hx, hy, hr⟩ := hspawn
    obtain ⟨h02, h12⟩ := settled_spawn_clear g hw hsettled hrow1
    have hdown : isValidMove g (movePuyoPos p MoveDir.down) = true := by
      unfold isValidMove movePuyoPos getSecondPuyoPosition
      rw [decide_eq_true_iff]
      simp only [hx, hy, hr]
      norm_num [GRID_ROWS, GRID_COLS]
      constructor
      · unfold getCellI
        rw [if_pos (by omega)]
        exact h12
      · unfold getCellI
        rw [if_pos (by omega)]
        exact h02
    rw [hrej] at hdown
    exact Bool.false_ne_true hdown
  · rw [isValidMove_iff] at hvalid
    exact ⟨hvalid.1, hvalid.2.1⟩

/-- C4 witness: on a settled board whose column 2 is filled from row 2 down,
the spawned piece moves down once, its next down move is rejected, and the
lock writes target rows 1 and 0 of column 2 — both in bounds. -/
theorem claim_C4_witness :
    isValidMove sampleStackGrid
      (movePuyoPos (movePuyoPos (generatePuyoPairAt (some PuyoColor.red) (some PuyoColor.green))
        MoveDir.down) MoveDir.down) = false ∧
    (inBoundsI (placePuyoTargets (movePuyoPos
        (generatePuyoPairAt (some PuyoColor.red) (some PuyoColor.green)) MoveDir.down)).1.1
      (placePuyoTargets (movePuyoPos
        (generatePuyoPairAt (some PuyoColor.red) (some PuyoColor.green)) MoveDir.down)).1.2 ∧
     inBoundsI (placePuyoTargets (movePuyoPos
        (generatePuyoPairAt (some PuyoColor.red) (some PuyoColor.green)) MoveDir.down)).2.1
      (placePuyoTargets (movePuyoPos
        (generatePuyoPairAt (some PuyoColor.red) (some PuyoColor.green)) MoveDir.down)).2.2) :=
  ⟨by decide,
    claim_C4 sampleStackGrid _ (by decide) (by decide) (by decide)
      (ReachablePiece.move _ MoveDir.down (ReachablePiece.spawn _ _) (by decide))
      (by decide)⟩

/-- C5: the resolver terminates on every well-formed grid — each clearing
pass removes at least 4 occupied cells, the loop reaches a state with no
matches left, and the number of clearing iterations (the final chain count)
is at most `R*C`. -/
theorem claim_C5 (g : Grid) (score : Nat) (hw : WFGrid g) :
    (∀ st : ResolveState, WFGrid st.grid → (scanGrid st.grid).2 = true →
      occupiedCount (resolveStep st).1.grid + 4 ≤ occupiedCount st.grid) ∧
    (scanGrid (applyGravityAndCheck g score).grid).2 = false ∧
    4 * (applyGravityAndCheck g score).chainCount ≤ occupiedCount (applyGravity g) ∧
    (applyGravityAndCheck g score).chainCount ≤ GRID_ROWS * GRID_COLS := by
  obtain ⟨-, w2, w3, w4⟩ := applyGravityAndCheck_props g score hw
  exact ⟨fun st hst hsc => resolveStep_occ st hst hsc, w2, w3, w4⟩

/-- C5 witness. -/
theorem claim_C5_witness :
    WFGrid sampleFiveGrid ∧
    ((scanGrid (applyGravityAndCheck sampleFiveGrid 0).grid).2 = false ∧
      (applyGravityAndCheck sampleFiveGrid 0).chainCount ≤ GRID_ROWS * GRID_COLS) :=
  ⟨by decide,
    ⟨(claim_C5 sampleFiveGrid 0 (by decide)).2.1,
     (claim_C5 sampleFiveGrid 0 (by decide)).2.2.2⟩⟩

/-- C6: after the resolver loop finishes, the session moves to game-over
exactly when some cell of row index 1 of the resulting grid is non-empty;
otherwise the phase stays active. -/
theorem claim_C6 (g : Grid) (score : Nat) (hw : WFGrid g) :
    (gameStateAfterResolve g score GameState.active = GameState.over ↔
      ∃ x, x < GRID_COLS ∧ getCell (applyGravityAndCheck g score).grid 1 x ≠ none) ∧
    ((¬ ∃ x, x < GRID_COLS ∧ getCell (applyGravityAndCheck g score).grid 1 x ≠ none) →
      gameStateAfterResolve g score GameState.active = GameState.active) := by
  have hw' := (applyGravityAndCheck_props g score hw).1
  have hiff := any_row_iff (applyGravityAndCheck g score).grid hw' 1 (by norm_num [GRID_ROWS])
  unfold gameStateAfterResolve
  constructor
  · constructor
    · intro h
      split_ifs at h with hc
      exact hiff.mp hc
    · intro hex
      rw [if_pos (hiff.mpr hex)]
  · intro hnex
    rw [if_neg (fun hc => hnex (hiff.mp hc))]

/-- C6 witness: a board that clears completely leaves row 1 empty and the
phase active. -/
theorem claim_C6_witness :
    WFGrid sampleMatchGrid ∧
    (gameStateAfterResolve sampleMatchGrid 0 GameState.active = GameState.over ↔
      ∃ x, x < GRID_COLS ∧ getCell (applyGravityAndCheck sampleMatchGrid 0).grid 1 x ≠ none) :=
  ⟨by decide, (claim_C6 sampleMatchGrid 0 (by decide)).1⟩

/-- C7: the placement validator accepts a piece exactly when both the anchor
cell and the orientation-determined second cell are inside the grid and both
target cells are empty. -/
theorem claim_C7 (g : Grid) (p : PuyoPair) :
    isValidMove g p = true ↔ isValidPlacementSpec g p :=
  isValidMove_iff g p

/-- C8: gravity acts on each column independently: the column of the output
grid keeps exactly the non-empty cells of the input column in their
top-to-bottom order, pushed to the lowest rows with empties above. -/
theorem claim_C8 (g : Grid) (x : Nat) (hw : WFGrid g) (hx : x < GRID_COLS) :
    getCol (applyGravity g) x =
      List.replicate (GRID_ROWS - ((getCol g x).filter Option.isSome).length) none ++
        (getCol g x).filter Option.isSome ∧
    (getCol (applyGravity g) x).filter Option.isSome = (getCol g x).filter Option.isSome := by
  have hlen : (getCol g x).length = GRID_ROWS := by rw [length_getCol, hw.1]
  have h1 : getCol (applyGravity g) x =
      List.replicate (GRID_ROWS - ((getCol g x).filter Option.isSome).length) none ++
        (getCol g x).filter Option.isSome := by
    rw [getCol_applyGravity g hw x hx, gravityColumn_eq _ hlen]
  refine ⟨h1, ?_⟩
  rw [h1, List.filter_append, List.filter_replicate, filter_isSome_self]
  simp

/-- C8 witness: the floating red puyo of column 0 falls to the bottom row. -/
theorem claim_C8_witness :
    (WFGrid sampleGapGrid ∧ 0 < GRID_COLS) ∧
    getCol (applyGravity sampleGapGrid) 0 =
      List.replicate (GRID_ROWS - ((getCol sampleGapGrid 0).filter Option.isSome).length) none ++
        (getCol sampleGapGrid 0).filter Option.isSome :=
  ⟨⟨by decide, by decide⟩, (claim_C8 sampleGapGrid 0 (by decide) (by decide)).1⟩

/-- C9: `applyGravity` is idempotent on well-formed grids. -/
theorem claim_C9 (g : Grid) (hw : WFGrid g) :
    applyGravity (applyGravity g) = applyGravity g :=
  applyGravity_idem g hw

/-- C9 witness. -/
theorem claim_C9_witness :
    WFGrid sampleGapGrid ∧
    applyGravity (applyGravity sampleGapGrid) = applyGravity sampleGapGrid :=
  ⟨by decide, claim_C9 sampleGapGrid (by decide)⟩

/-- C10: the pause toggle flips `isPaused` unconditionally — the session
state carries the phase and the toggle is defined without inspecting it, so
this holds in the title and over phases as well — and leaves every other
session field (grid, phase, score, pieces, queue, chain counter, high score,
fall interval, hold state, animation flag) unchanged. -/
theorem claim_C10 (s : Session) :
    (togglePause s).isPaused = !s.isPaused ∧
    (togglePause s).grid = s.grid ∧
    (togglePause s).gameState = s.gameState ∧
    (togglePause s).score = s.score ∧
    (togglePause s).currentPuyo = s.currentPuyo ∧
    (togglePause s).nextPuyos = s.nextPuyos ∧
    (togglePause s).chainCounter = s.chainCounter ∧
    (togglePause s).highScore = s.highScore ∧
    (togglePause s).fallSpeed = s.fallSpeed ∧
    (togglePause s).heldPuyo = s.heldPuyo ∧
    (togglePause s).canHold = s.canHold ∧
    (togglePause s).isAnimating = s.isAnimating :=
  ⟨rfl, rfl, rfl, rfl, rfl, rfl, rfl, rfl, rfl, rfl, rfl, rfl⟩

end Puyo
